import Mathlib

/-!
Verification of the traildb-node client core (`src/lib/traildb.js`).

The development shallowly embeds the client-side logic of the Node.js
TrailDB bindings: the item codec (`tdb_item_is_32`, `tdb_item_field`),
the UUID codec (`uuidRaw`, `uuidHex`), the event-record reader
(the `EventsIterator` next step), and the filter compiler
(`TrailDBFilter`).  The native `libtraildb` storage engine is an external
collaborator; it is modelled as an abstract `Store` of resolution
functions, and the C calls that build a filter are recorded as an
explicit operation trace so that resource-handling claims (what is
allocated, released, or leaked) can be stated and settled.

JavaScript numbers behave as mathematical integers here except for the
bitwise operators, which JavaScript evaluates on 32-bit two's-complement
values; those are embedded explicitly (`jsAnd`, `jsShr`, `jsShl`,
`jsOr`) so that the item codec is faithful to the source.
-/

/-! ## JavaScript 32-bit bitwise semantics

JavaScript `&`, `|`, `<<`, `>>` convert their operands with ToInt32
(truncate to the low 32 bits, interpret as two's complement) and operate
on the 32-bit patterns.  We work with the unsigned 32-bit bit pattern of
each result; `jsShr` is the arithmetic (sign-extending) right shift. -/

def jsAnd (a b : Nat) : Nat := (a % 2 ^ 32) &&& (b % 2 ^ 32)

def jsOr (a b : Nat) : Nat := (a % 2 ^ 32) ||| (b % 2 ^ 32)

def jsShl (a k : Nat) : Nat := ((a % 2 ^ 32) <<< k) % 2 ^ 32

def jsShr (a k : Nat) : Nat :=
  (a % 2 ^ 32) >>> k + (if 2 ^ 31 ≤ a % 2 ^ 32 then 2 ^ 32 - 2 ^ (32 - k) else 0)

/-! ## Item codec (ported in the source from `tdb_types.h`) -/

/-- `tdb_item_is_32` from the source: `return !(item & 128);`. -/
def tdb_item_is_32 (item : Nat) : Bool := jsAnd item 128 == 0

/-- `tdb_item_field` from the source:
if narrow, `item & 127`, else `(item & 127) | (((item >> 8) & 127) << 7)`,
with every bitwise operator carrying JavaScript 32-bit semantics. -/
def tdb_item_field (item : Nat) : Nat :=
  if tdb_item_is_32 item then jsAnd item 127
  else jsOr (jsAnd item 127) (jsShl (jsAnd (jsShr item 8) 127) 7)

theorem and_127_eq_mod (x : Nat) : x &&& 127 = x % 128 := by
  have h : (127 : Nat) = 2 ^ 7 - 1 := by norm_num
  rw [h, Nat.and_pow_two_sub_one_eq_mod]

theorem jsAnd_127 (x : Nat) : jsAnd x 127 = x % 128 := by
  unfold jsAnd
  have h127 : (127 : Nat) % 2 ^ 32 = 127 := by norm_num
  rw [h127, and_127_eq_mod]
  omega

theorem jsAnd_shr8_127 (x : Nat) : jsAnd (jsShr x 8) 127 = (x >>> 8) &&& 127 := by
  rw [jsAnd_127, and_127_eq_mod, Nat.shiftRight_eq_div_pow]
  unfold jsShr
  rw [Nat.shiftRight_eq_div_pow]
  have hsplit : x % 2 ^ 32 / 2 ^ 8 = x / 2 ^ 8 % 2 ^ 24 := by
    have h1 : (2 ^ 32 : Nat) = 2 ^ 8 * 2 ^ 24 := by norm_num
    rw [h1, Nat.mod_mul_right_div_self]
  have habsorb : x / 2 ^ 8 % 2 ^ 24 % 128 = x / 2 ^ 8 % 128 :=
    Nat.mod_mod_of_dvd _ (by norm_num)
  by_cases h : 2 ^ 31 ≤ x % 2 ^ 32
  · rw [if_pos h]
    have hfill : (2 ^ 32 - 2 ^ (32 - 8) : Nat) = 128 * 33423360 := by norm_num
    rw [hfill, Nat.add_mul_mod_self_left, hsplit, habsorb]
  · rw [if_neg h, Nat.add_zero, hsplit, habsorb]

theorem jsAnd_128_eq (x : Nat) : jsAnd x 128 = x &&& 128 := by
  unfold jsAnd
  have h128 : (128 : Nat) % 2 ^ 32 = 128 := by norm_num
  rw [h128]
  have h7 : (128 : Nat) = 2 ^ 7 := by norm_num
  rw [h7, Nat.and_two_pow, Nat.and_two_pow]
  have ht : (x % 2 ^ 32).testBit 7 = x.testBit 7 := by
    rw [Nat.testBit_mod_two_pow]
    simp
  rw [ht]

/-- C2: the item codec field extractor is a total function over 64-bit
items; on narrow items (bit 7 clear) it returns `item & 0x7F`, which is
below 128, and on wide items it returns
`(item & 0x7F) | (((item >> 8) & 0x7F) << 7)` computed over the full
64-bit input, which lies in `[0, 16384)` — despite JavaScript truncating
bitwise operands to 32 bits, the result agrees with the 64-bit formula. -/
theorem tdb_item_field_spec (item : Nat) (_h64 : item < 2 ^ 64) :
    (item &&& 128 = 0 →
      tdb_item_field item = item &&& 127 ∧ tdb_item_field item < 128) ∧
    (item &&& 128 ≠ 0 →
      tdb_item_field item = (item &&& 127) ||| (((item >>> 8) &&& 127) <<< 7) ∧
      tdb_item_field item < 16384) := by
  have hmask : item &&& 127 = item % 128 := and_127_eq_mod item
  have hhiv : (item >>> 8) &&& 127 < 128 := by
    rw [and_127_eq_mod]; omega
  constructor
  · intro hnarrow
    have hn : tdb_item_is_32 item = true := by
      unfold tdb_item_is_32
      rw [jsAnd_128_eq, hnarrow]
      rfl
    unfold tdb_item_field
    rw [hn, if_pos rfl, jsAnd_127, hmask]
    exact ⟨rfl, Nat.mod_lt _ (by norm_num)⟩
  · intro hwide
    have hn : tdb_item_is_32 item = false := by
      unfold tdb_item_is_32
      rw [jsAnd_128_eq]
      simpa using hwide
    unfold tdb_item_field
    rw [hn]
    simp only [Bool.false_eq_true, if_false]
    have hlow : jsAnd item 127 = item &&& 127 := by rw [jsAnd_127, hmask]
    have hshl : jsShl (jsAnd (jsShr item 8) 127) 7 = ((item >>> 8) &&& 127) <<< 7 := by
      rw [jsAnd_shr8_127]
      unfold jsShl
      have hsm : ((item >>> 8) &&& 127) % 2 ^ 32 = (item >>> 8) &&& 127 :=
        Nat.mod_eq_of_lt (by omega)
      rw [hsm, Nat.shiftLeft_eq]
      exact Nat.mod_eq_of_lt (by omega)
    have hor : jsOr (item &&& 127) (((item >>> 8) &&& 127) <<< 7)
        = (item &&& 127) ||| (((item >>> 8) &&& 127) <<< 7) := by
      unfold jsOr
      have h1 : (item &&& 127) % 2 ^ 32 = item &&& 127 :=
        Nat.mod_eq_of_lt (by omega)
      have h2 : (((item >>> 8) &&& 127) <<< 7) % 2 ^ 32 = ((item >>> 8) &&& 127) <<< 7 := by
        rw [Nat.shiftLeft_eq]
        exact Nat.mod_eq_of_lt (by omega)
      rw [h1, h2]
    rw [hlow, hshl, hor]
    refine ⟨rfl, ?_⟩
    have hb1 : item &&& 127 < 2 ^ 14 := by omega
    have hb2 : ((item >>> 8) &&& 127) <<< 7 < 2 ^ 14 := by
      rw [Nat.shiftLeft_eq]
      omega
    have hlt := Nat.or_lt_two_pow hb1 hb2
    omega

/-- Witness for C2 at the concrete wide item 384 (bit 7 set). -/
theorem tdb_item_field_spec_witness :
    tdb_item_field 384 = (384 &&& 127) ||| (((384 >>> 8) &&& 127) <<< 7) ∧
    tdb_item_field 384 < 16384 :=
  (tdb_item_field_spec 384 (by norm_num)).2 (by decide)

/-! ## UUID codec

`uuidRaw` embeds the source's parse: test the string against the
unanchored regex `/[0-9a-f]{8}-[0-9a-f]{4}-[0-9a-f]{4}-[0-9a-f]{4}-[0-9a-f]{12}/`,
throw `Invalid UUID` when it fails, otherwise strip every hyphen and
hex-decode.  `uuidHex` embeds the format direction: hex-encode 16 bytes
and join the 8-4-4-4-12 slices with hyphens.  Strings are `List Char`,
byte buffers are `List Nat` of values below 256. -/

inductive TdbError where
  | invalidUuid
  | unableToLocateField (field : String)
  | unknownFieldName (field : String)
  deriving DecidableEq

/-- The sixteen characters of the regex class `[0-9a-f]`: the decimal
digits followed by the first six lowercase letters. -/
def hexClass : List Char :=
  (List.range 10).map (fun n => Char.ofNat (48 + n)) ++
    (List.range 6).map (fun n => Char.ofNat (97 + n))

def isHexLower (c : Char) : Bool := hexClass.contains c

/-- Value of one hex digit as decoded by `Buffer(s, 'hex')`
(the decoder also accepts uppercase). -/
def hexVal (c : Char) : Option Nat :=
  if c.isDigit then some (c.toNat - 48)
  else
    match c with
    | 'f' => some 15 | 'e' => some 14 | 'd' => some 13
    | 'c' => some 12 | 'b' => some 11 | 'a' => some 10
    | 'F' => some 15 | 'E' => some 14 | 'D' => some 13
    | 'C' => some 12 | 'B' => some 11 | 'A' => some 10
    | _ => none

/-- Lowercase hex digit emitted by `Buffer.toString('hex')` for a nibble. -/
def hexChar (n : Nat) : Char := hexClass.getD n '0'

def byteToHex (b : Nat) : List Char := [hexChar (b / 16), hexChar (b % 16)]

def bytesToHex : List Nat → List Char
  | [] => []
  | b :: rest => byteToHex b ++ bytesToHex rest

/-- Hex decoding as performed by `new Buffer(s, 'hex')`: consume pairs of
hex digits, stop at the first invalid pair or trailing odd digit. -/
def hexDecode : List Char → List Nat
  | c1 :: c2 :: rest =>
    match hexVal c1, hexVal c2 with
    | some h, some l => (16 * h + l) :: hexDecode rest
    | _, _ => []
  | _ => []

/-- Match exactly `n` characters of the class `[0-9a-f]`, returning the
rest of the input. -/
def matchHexRun : Nat → List Char → Option (List Char)
  | 0, s => some s
  | _ + 1, [] => none
  | n + 1, c :: rest => if isHexLower c then matchHexRun n rest else none

def matchDash : List Char → Option (List Char)
  | '-' :: rest => some rest
  | _ => none

/-- Does the UUID pattern match at the head of the input?  The stages
mirror the regex `[0-9a-f]{8}-[0-9a-f]{4}-[0-9a-f]{4}-[0-9a-f]{4}-[0-9a-f]{12}`
left to right (the quantifiers are exact, so the engine never backtracks). -/
def matchUuidHere (s : List Char) : Bool :=
  ((((((((matchHexRun 8 s).bind matchDash).bind
    (matchHexRun 4)).bind matchDash).bind
    (matchHexRun 4)).bind matchDash).bind
    (matchHexRun 4)).bind matchDash).bind
    (matchHexRun 12) |>.isSome

/-- `UUID_REGEX.test`: unanchored search, trying every start position. -/
def uuidTest : List Char → Bool
  | [] => false
  | c :: rest => matchUuidHere (c :: rest) || uuidTest rest

/-- `uuidRaw` from the source: reject when the regex finds no match,
otherwise drop every `-` and hex-decode the remainder. -/
def uuidRaw (s : List Char) : Except TdbError (List Nat) :=
  if uuidTest s then .ok (hexDecode (s.filter (fun c => !(c == '-'))))
  else .error .invalidUuid

/-- `uuidHex` from the source: hex-encode the 16-byte buffer and join the
slices `[0,8) [8,12) [12,16) [16,20) [20,32)` with hyphens. -/
def uuidHex (bs : List Nat) : List Char :=
  let s := bytesToHex (bs.take 16)
  s.take 8 ++ '-' :: ((s.drop 8).take 4 ++ '-' :: ((s.drop 12).take 4 ++
    '-' :: ((s.drop 16).take 4 ++ '-' :: (s.drop 20).take 12)))


/-! ### UUID codec lemmas -/

theorem hexVal_hexChar : ∀ n, n < 16 → hexVal (hexChar n) = some n := by decide

theorem hexChar_lt_16_mem (n : Nat) (h : n < 16) : hexChar n ∈ hexClass := by
  interval_cases n <;> decide

theorem isHexLower_iff_mem (c : Char) : isHexLower c = true ↔ c ∈ hexClass := by
  unfold isHexLower
  constructor
  · intro h
    exact List.mem_of_elem_eq_true h
  · intro h
    exact List.elem_eq_true_of_mem h

theorem hex_char_cases (c : Char) (h : isHexLower c = true) :
    ∃ n, hexVal c = some n ∧ n < 16 ∧ hexChar n = c := by
  have hm : c ∈ hexClass := (isHexLower_iff_mem c).1 h
  unfold hexClass at hm
  rcases List.mem_append.1 hm with hd | hl
  · obtain ⟨n, hn, rfl⟩ := List.mem_map.1 hd
    have hn10 : n < 10 := List.mem_range.1 hn
    interval_cases n <;> exact ⟨_, rfl, by decide, rfl⟩
  · obtain ⟨n, hn, rfl⟩ := List.mem_map.1 hl
    have hn6 : n < 6 := List.mem_range.1 hn
    interval_cases n <;> exact ⟨_, rfl, by decide, rfl⟩

theorem isHexLower_ne_dash (c : Char) (h : isHexLower c = true) : ¬(c == '-') = true := by
  intro hd
  have hc : c = '-' := by simpa using hd
  subst hc
  exact absurd h (by decide)

theorem byteToHex_all_hex (b : Nat) (hb : b < 256) :
    ∀ c ∈ byteToHex b, isHexLower c = true := by
  intro c hc
  have h1 : b / 16 < 16 := by omega
  have h2 : b % 16 < 16 := by omega
  simp only [byteToHex, List.mem_cons, List.not_mem_nil, or_false] at hc
  rcases hc with rfl | rfl
  · exact (isHexLower_iff_mem _).2 (hexChar_lt_16_mem _ h1)
  · exact (isHexLower_iff_mem _).2 (hexChar_lt_16_mem _ h2)

theorem bytesToHex_all_hex : ∀ bs : List Nat, (∀ b ∈ bs, b < 256) →
    ∀ c ∈ bytesToHex bs, isHexLower c = true := by
  intro bs
  induction bs with
  | nil => intro _ c hc; simp [bytesToHex] at hc
  | cons b rest ih =>
    intro hb c hc
    simp only [bytesToHex, List.mem_append] at hc
    rcases hc with hc | hc
    · exact byteToHex_all_hex b (hb b (List.mem_cons_self b rest)) c hc
    · exact ih (fun x hx => hb x (List.mem_cons_of_mem b hx)) c hc

theorem bytesToHex_length : ∀ bs : List Nat, (bytesToHex bs).length = 2 * bs.length := by
  intro bs
  induction bs with
  | nil => rfl
  | cons b rest ih =>
    simp only [bytesToHex, byteToHex, List.length_append, List.length_cons, ih]
    simp
    omega

theorem hexDecode_bytesToHex : ∀ bs : List Nat, (∀ b ∈ bs, b < 256) →
    hexDecode (bytesToHex bs) = bs := by
  intro bs
  induction bs with
  | nil => intro _; rfl
  | cons b rest ih =>
    intro hb
    have hblt : b < 256 := hb b (List.mem_cons_self b rest)
    have h1 : b / 16 < 16 := by omega
    have h2 : b % 16 < 16 := by omega
    simp only [bytesToHex, byteToHex, List.cons_append, List.nil_append, hexDecode,
      hexVal_hexChar _ h1, hexVal_hexChar _ h2]
    have hnil : ([] : List Char).append (bytesToHex rest) = bytesToHex rest := rfl
    rw [hnil, ih (fun x hx => hb x (List.mem_cons_of_mem b hx))]
    have : 16 * (b / 16) + b % 16 = b := by omega
    rw [this]

theorem bytesToHex_hexDecode : ∀ s : List Char, (∀ c ∈ s, isHexLower c = true) →
    s.length % 2 = 0 → bytesToHex (hexDecode s) = s
  | [] => fun _ _ => rfl
  | [c] => fun _ habs => by simp at habs
  | c1 :: c2 :: rest => fun hhex hlen => by
      obtain ⟨n1, hv1, hn1, hc1⟩ := hex_char_cases c1 (hhex c1 (by simp))
      obtain ⟨n2, hv2, hn2, hc2⟩ := hex_char_cases c2 (hhex c2 (by simp))
      simp only [hexDecode, hv1, hv2, bytesToHex, byteToHex]
      have hd : (16 * n1 + n2) / 16 = n1 := by omega
      have hm : (16 * n1 + n2) % 16 = n2 := by omega
      rw [hd, hm, hc1, hc2]
      have hrest : bytesToHex (hexDecode rest) = rest := by
        apply bytesToHex_hexDecode rest
        · intro c hc; exact hhex c (by simp [hc])
        · have : (c1 :: c2 :: rest).length = rest.length + 2 := by simp
          omega
      rw [hrest]
      simp

/-! ### The UUID pattern as a specification-side predicate -/

/-- The input decomposes as five lowercase-hex groups of sizes
8-4-4-4-12 joined by hyphens, followed by `rest`. -/
def UuidShape (s rest : List Char) : Prop :=
  ∃ g1 g2 g3 g4 g5 : List Char,
    g1.length = 8 ∧ g2.length = 4 ∧ g3.length = 4 ∧ g4.length = 4 ∧ g5.length = 12 ∧
    (∀ c ∈ g1, isHexLower c = true) ∧ (∀ c ∈ g2, isHexLower c = true) ∧
    (∀ c ∈ g3, isHexLower c = true) ∧ (∀ c ∈ g4, isHexLower c = true) ∧
    (∀ c ∈ g5, isHexLower c = true) ∧
    s = g1 ++ '-' :: (g2 ++ '-' :: (g3 ++ '-' :: (g4 ++ '-' :: (g5 ++ rest))))

/-- The canonical UUID pattern matches at the head of the input. -/
def MatchesHere (s : List Char) : Prop := ∃ rest, UuidShape s rest

/-- The input contains a substring matching the canonical UUID pattern. -/
def HasUuidSub (s : List Char) : Prop := ∃ pre t, s = pre ++ t ∧ MatchesHere t

theorem matchHexRun_append (g rest : List Char) (hx : ∀ c ∈ g, isHexLower c = true) :
    matchHexRun g.length (g ++ rest) = some rest := by
  induction g with
  | nil => rfl
  | cons c g ih =>
    simp only [List.length_cons, List.cons_append, matchHexRun,
      hx c (List.mem_cons_self c g), if_pos]
    exact ih (fun x hxm => hx x (List.mem_cons_of_mem c hxm))

theorem matchHexRun_some : ∀ (n : Nat) (s r : List Char), matchHexRun n s = some r →
    ∃ g, s = g ++ r ∧ g.length = n ∧ ∀ c ∈ g, isHexLower c = true
  | 0, s, r => by
    intro h
    simp only [matchHexRun, Option.some.injEq] at h
    exact ⟨[], by simp [h], rfl, by simp⟩
  | n + 1, [], r => by intro h; simp [matchHexRun] at h
  | n + 1, c :: s, r => by
    intro h
    simp only [matchHexRun] at h
    by_cases hc : isHexLower c = true
    · rw [if_pos hc] at h
      obtain ⟨g, hs, hl, hhx⟩ := matchHexRun_some n s r h
      refine ⟨c :: g, by simp [hs], ?_, ?_⟩
      · simp [hl]
      · intro x hx
        rcases List.mem_cons.1 hx with rfl | hx
        · exact hc
        · exact hhx x hx
    · rw [if_neg hc] at h
      exact absurd h (by simp)

theorem matchDash_some : ∀ (s r : List Char), matchDash s = some r → s = '-' :: r := by
  intro s r h
  match s with
  | [] => simp [matchDash] at h
  | c :: t =>
    by_cases hc : c = '-'
    · subst hc
      simp only [matchDash, Option.some.injEq] at h
      rw [h]
    · exact absurd h (by simp [matchDash, hc])

theorem matchHexRun_append' (n : Nat) (g rest : List Char) (hl : g.length = n)
    (hx : ∀ c ∈ g, isHexLower c = true) : matchHexRun n (g ++ rest) = some rest := by
  rw [← hl]
  exact matchHexRun_append g rest hx

theorem matchDash_cons (r : List Char) : matchDash ('-' :: r) = some r := rfl

theorem matchUuidHere_true_of (s : List Char) (h : MatchesHere s) :
    matchUuidHere s = true := by
  obtain ⟨rest, g1, g2, g3, g4, g5, hl1, hl2, hl3, hl4, hl5,
    hx1, hx2, hx3, hx4, hx5, hs⟩ := h
  subst hs
  unfold matchUuidHere
  rw [matchHexRun_append' 8 g1 _ hl1 hx1]
  simp only [Option.some_bind, matchDash_cons]
  rw [matchHexRun_append' 4 g2 _ hl2 hx2]
  simp only [Option.some_bind, matchDash_cons]
  rw [matchHexRun_append' 4 g3 _ hl3 hx3]
  simp only [Option.some_bind, matchDash_cons]
  rw [matchHexRun_append' 4 g4 _ hl4 hx4]
  simp only [Option.some_bind, matchDash_cons]
  rw [matchHexRun_append' 12 g5 _ hl5 hx5]
  rfl

theorem matchUuidHere_of_true (s : List Char) (h : matchUuidHere s = true) :
    MatchesHere s := by
  unfold matchUuidHere at h
  cases e1 : matchHexRun 8 s with
  | none => rw [e1] at h; simp at h
  | some s1 =>
  rw [e1] at h
  simp only [Option.some_bind] at h
  cases e2 : matchDash s1 with
  | none => rw [e2] at h; simp at h
  | some s2 =>
  rw [e2] at h
  simp only [Option.some_bind] at h
  cases e3 : matchHexRun 4 s2 with
  | none => rw [e3] at h; simp at h
  | some s3 =>
  rw [e3] at h
  simp only [Option.some_bind] at h
  cases e4 : matchDash s3 with
  | none => rw [e4] at h; simp at h
  | some s4 =>
  rw [e4] at h
  simp only [Option.some_bind] at h
  cases e5 : matchHexRun 4 s4 with
  | none => rw [e5] at h; simp at h
  | some s5 =>
  rw [e5] at h
  simp only [Option.some_bind] at h
  cases e6 : matchDash s5 with
  | none => rw [e6] at h; simp at h
  | some s6 =>
  rw [e6] at h
  simp only [Option.some_bind] at h
  cases e7 : matchHexRun 4 s6 with
  | none => rw [e7] at h; simp at h
  | some s7 =>
  rw [e7] at h
  simp only [Option.some_bind] at h
  cases e8 : matchDash s7 with
  | none => rw [e8] at h; simp at h
  | some s8 =>
  rw [e8] at h
  simp only [Option.some_bind] at h
  cases e9 : matchHexRun 12 s8 with
  | none => rw [e9] at h; simp at h
  | some s9 =>
  obtain ⟨g1, hs1, hgl1, hgx1⟩ := matchHexRun_some 8 s s1 e1
  have hd1 := matchDash_some s1 s2 e2
  obtain ⟨g2, hs2, hgl2, hgx2⟩ := matchHexRun_some 4 s2 s3 e3
  have hd2 := matchDash_some s3 s4 e4
  obtain ⟨g3, hs3, hgl3, hgx3⟩ := matchHexRun_some 4 s4 s5 e5
  have hd3 := matchDash_some s5 s6 e6
  obtain ⟨g4, hs4, hgl4, hgx4⟩ := matchHexRun_some 4 s6 s7 e7
  have hd4 := matchDash_some s7 s8 e8
  obtain ⟨g5, hs5, hgl5, hgx5⟩ := matchHexRun_some 12 s8 s9 e9
  refine ⟨s9, g1, g2, g3, g4, g5, hgl1, hgl2, hgl3, hgl4, hgl5,
    hgx1, hgx2, hgx3, hgx4, hgx5, ?_⟩
  rw [hs1, hd1, hs2, hd2, hs3, hd3, hs4, hd4, hs5]

theorem uuidTest_iff (s : List Char) : uuidTest s = true ↔ HasUuidSub s := by
  induction s with
  | nil =>
    simp only [uuidTest, Bool.false_eq_true, false_iff]
    rintro ⟨pre, t, hst, rest, g1, _g2, _g3, _g4, _g5, hl1, _, _, _, _, _, _, _, _, _, ht⟩
    have : ([] : List Char).length = (pre ++ t).length := by rw [hst]
    rw [ht] at this
    simp [hl1] at this
    omega
  | cons c rest ih =>
    simp only [uuidTest, Bool.or_eq_true, ih]
    constructor
    · rintro (hhere | ⟨pre, t, hrt, hmt⟩)
      · exact ⟨[], c :: rest, rfl, matchUuidHere_of_true _ hhere⟩
      · exact ⟨c :: pre, t, by rw [hrt]; rfl, hmt⟩
    · rintro ⟨pre, t, hst, hmt⟩
      match pre, hst with
      | [], hst =>
        left
        rw [List.nil_append] at hst
        rw [hst]
        exact matchUuidHere_true_of t hmt
      | c' :: pre', hst =>
        right
        simp only [List.cons_append, List.cons.injEq] at hst
        exact ⟨pre', t, hst.2, hmt⟩

/-! ### UUID round-trip -/

theorem filter_dash_of_hex (l : List Char) (hx : ∀ c ∈ l, isHexLower c = true) :
    l.filter (fun c => !(c == '-')) = l := by
  rw [List.filter_eq_self]
  intro c hc
  have hne : c ≠ '-' := by
    intro hceq
    subst hceq
    exact absurd (hx _ hc) (by decide)
  simp [hne]

theorem uuidHex_shape (bs : List Nat) (hlen : bs.length = 16) (hb : ∀ b ∈ bs, b < 256) :
    UuidShape (uuidHex bs) [] := by
  have htake : bs.take 16 = bs := List.take_of_length_le (by omega)
  have hslen : (bytesToHex bs).length = 32 := by
    rw [bytesToHex_length, hlen]
  have hshex : ∀ c ∈ bytesToHex bs, isHexLower c = true := bytesToHex_all_hex bs hb
  refine ⟨(bytesToHex bs).take 8, ((bytesToHex bs).drop 8).take 4,
    ((bytesToHex bs).drop 12).take 4, ((bytesToHex bs).drop 16).take 4,
    ((bytesToHex bs).drop 20).take 12, ?_, ?_, ?_, ?_, ?_, ?_, ?_, ?_, ?_, ?_, ?_⟩
  · simp [List.length_take, hslen]
  · simp [List.length_take, List.length_drop, hslen]
  · simp [List.length_take, List.length_drop, hslen]
  · simp [List.length_take, List.length_drop, hslen]
  · simp [List.length_take, List.length_drop, hslen]
  · intro c hc; exact hshex c (List.take_subset _ _ hc)
  · intro c hc; exact hshex c (List.drop_subset _ _ (List.take_subset _ _ hc))
  · intro c hc; exact hshex c (List.drop_subset _ _ (List.take_subset _ _ hc))
  · intro c hc; exact hshex c (List.drop_subset _ _ (List.take_subset _ _ hc))
  · intro c hc; exact hshex c (List.drop_subset _ _ (List.take_subset _ _ hc))
  · unfold uuidHex
    rw [htake]
    simp only [List.append_nil]

theorem slices_reassemble (s : List Char) (hlen : s.length = 32) :
    s.take 8 ++ ((s.drop 8).take 4 ++ ((s.drop 12).take 4 ++
      ((s.drop 16).take 4 ++ (s.drop 20).take 12))) = s := by
  have h8 : (s.drop 8).take 4 ++ (s.drop 8).drop 4 = s.drop 8 := List.take_append_drop _ _
  have e8 : (s.drop 8).drop 4 = s.drop 12 := by rw [List.drop_drop]
  have h12 : (s.drop 12).take 4 ++ (s.drop 12).drop 4 = s.drop 12 := List.take_append_drop _ _
  have e12 : (s.drop 12).drop 4 = s.drop 16 := by rw [List.drop_drop]
  have h16 : (s.drop 16).take 4 ++ (s.drop 16).drop 4 = s.drop 16 := List.take_append_drop _ _
  have e16 : (s.drop 16).drop 4 = s.drop 20 := by rw [List.drop_drop]
  have h20 : (s.drop 20).take 12 = s.drop 20 :=
    List.take_of_length_le (by simp [List.length_drop, hlen])
  rw [h20]
  rw [e8] at h8
  rw [e12] at h12
  rw [e16] at h16
  rw [h16, h12, h8]
  exact List.take_append_drop 8 s

theorem uuidHex_filter (bs : List Nat) (hlen : bs.length = 16) (hb : ∀ b ∈ bs, b < 256) :
    (uuidHex bs).filter (fun c => !(c == '-')) = bytesToHex bs := by
  have htake : bs.take 16 = bs := List.take_of_length_le (by omega)
  have hslen : (bytesToHex bs).length = 32 := by rw [bytesToHex_length, hlen]
  have hshex := bytesToHex_all_hex bs hb
  unfold uuidHex
  rw [htake]
  simp only [List.filter_append, List.filter_cons]
  norm_num
  rw [filter_dash_of_hex _ (fun c hc => hshex c (List.take_subset _ _ hc)),
    filter_dash_of_hex _ (fun c hc => hshex c (List.drop_subset _ _ (List.take_subset _ _ hc))),
    filter_dash_of_hex _ (fun c hc => hshex c (List.drop_subset _ _ (List.take_subset _ _ hc))),
    filter_dash_of_hex _ (fun c hc => hshex c (List.drop_subset _ _ (List.take_subset _ _ hc))),
    filter_dash_of_hex _ (fun c hc => hshex c (List.drop_subset _ _ (List.take_subset _ _ hc)))]
  exact slices_reassemble _ hslen

/-- C7: the UUID codec round-trips in both directions: parsing the
formatted string of any 16-byte buffer gives back the buffer, and
formatting the bytes parsed from any string of the canonical
8-4-4-4-12 lowercase-hex hyphenated shape gives back the string. -/
theorem uuid_codec_roundtrip :
    (∀ bs : List Nat, bs.length = 16 → (∀ b ∈ bs, b < 256) →
      uuidRaw (uuidHex bs) = .ok bs) ∧
    (∀ s : List Char, UuidShape s [] →
      ∃ bs, uuidRaw s = .ok bs ∧ uuidHex bs = s) := by
  constructor
  · intro bs hlen hb
    have hshape : UuidShape (uuidHex bs) [] := uuidHex_shape bs hlen hb
    have htest : uuidTest (uuidHex bs) = true :=
      (uuidTest_iff _).2 ⟨[], uuidHex bs, rfl, [], hshape⟩
    unfold uuidRaw
    rw [htest, if_pos rfl, uuidHex_filter bs hlen hb, hexDecode_bytesToHex bs hb]
  · intro s hshape
    have htest : uuidTest s = true := (uuidTest_iff _).2 ⟨[], s, rfl, [], hshape⟩
    obtain ⟨g1, g2, g3, g4, g5, hl1, hl2, hl3, hl4, hl5,
      hx1, hx2, hx3, hx4, hx5, hs⟩ := hshape
    rw [List.append_nil] at hs
    have hs' : s = g1 ++ '-' :: (g2 ++ '-' :: (g3 ++ '-' :: (g4 ++ '-' :: g5))) := hs
    have hfil : s.filter (fun c => !(c == '-')) = g1 ++ (g2 ++ (g3 ++ (g4 ++ g5))) := by
      rw [hs']
      simp only [List.filter_append, List.filter_cons]
      norm_num
      rw [filter_dash_of_hex _ hx1, filter_dash_of_hex _ hx2, filter_dash_of_hex _ hx3,
        filter_dash_of_hex _ hx4, filter_dash_of_hex _ hx5]
    have hhx : ∀ c ∈ g1 ++ (g2 ++ (g3 ++ (g4 ++ g5))), isHexLower c = true := by
      intro c hc
      simp only [List.mem_append] at hc
      rcases hc with h | h | h | h | h
      exacts [hx1 c h, hx2 c h, hx3 c h, hx4 c h, hx5 c h]
    have hhlen : (g1 ++ (g2 ++ (g3 ++ (g4 ++ g5)))).length = 32 := by
      simp [hl1, hl2, hl3, hl4, hl5]
    have hback : bytesToHex (hexDecode (g1 ++ (g2 ++ (g3 ++ (g4 ++ g5)))))
        = g1 ++ (g2 ++ (g3 ++ (g4 ++ g5))) :=
      bytesToHex_hexDecode _ hhx (by omega)
    have hbslen : (hexDecode (g1 ++ (g2 ++ (g3 ++ (g4 ++ g5))))).length = 16 := by
      have := bytesToHex_length (hexDecode (g1 ++ (g2 ++ (g3 ++ (g4 ++ g5)))))
      rw [hback] at this
      omega
    refine ⟨hexDecode (g1 ++ (g2 ++ (g3 ++ (g4 ++ g5)))), ?_, ?_⟩
    · unfold uuidRaw
      rw [htest, if_pos rfl, hfil]
    · unfold uuidHex
      rw [List.take_of_length_le (by omega), hback]
      have d8 : (g1 ++ (g2 ++ (g3 ++ (g4 ++ g5)))).drop 8 = g2 ++ (g3 ++ (g4 ++ g5)) :=
        List.drop_left' hl1
      have d12' : ((g1 ++ (g2 ++ (g3 ++ (g4 ++ g5)))).drop 8).drop 4
          = g3 ++ (g4 ++ g5) := by
        rw [d8]; exact List.drop_left' hl2
      have e12 : ((g1 ++ (g2 ++ (g3 ++ (g4 ++ g5)))).drop 8).drop 4
          = (g1 ++ (g2 ++ (g3 ++ (g4 ++ g5)))).drop 12 := by
        rw [List.drop_drop]
      have d12 : (g1 ++ (g2 ++ (g3 ++ (g4 ++ g5)))).drop 12 = g3 ++ (g4 ++ g5) := by
        rw [← e12]; exact d12'
      have d16' : ((g1 ++ (g2 ++ (g3 ++ (g4 ++ g5)))).drop 12).drop 4 = g4 ++ g5 := by
        rw [d12]; exact List.drop_left' hl3
      have e16 : ((g1 ++ (g2 ++ (g3 ++ (g4 ++ g5)))).drop 12).drop 4
          = (g1 ++ (g2 ++ (g3 ++ (g4 ++ g5)))).drop 16 := by
        rw [List.drop_drop]
      have d16 : (g1 ++ (g2 ++ (g3 ++ (g4 ++ g5)))).drop 16 = g4 ++ g5 := by
        rw [← e16]; exact d16'
      have d20' : ((g1 ++ (g2 ++ (g3 ++ (g4 ++ g5)))).drop 16).drop 4 = g5 := by
        rw [d16]; exact List.drop_left' hl4
      have e20 : ((g1 ++ (g2 ++ (g3 ++ (g4 ++ g5)))).drop 16).drop 4
          = (g1 ++ (g2 ++ (g3 ++ (g4 ++ g5)))).drop 20 := by
        rw [List.drop_drop]
      have d20 : (g1 ++ (g2 ++ (g3 ++ (g4 ++ g5)))).drop 20 = g5 := by
        rw [← e20]; exact d20'
      have hg5 : g5.take 12 = g5 := List.take_of_length_le (by omega)
      simp only [List.take_left' hl1, d8, List.take_left' hl2, d12, List.take_left' hl3,
        d16, List.take_left' hl4, d20, hg5]
      exact hs'.symm

/-- Witness for C7 on the buffer of the README's first example UUID. -/
theorem uuid_codec_roundtrip_witness :
    uuidRaw (uuidHex [0x77, 0x17, 0x99, 0xeb, 0x6a, 0x0d, 0x45, 0x55,
      0x99, 0x17, 0x0a, 0x5d, 0x44, 0x9b, 0x35, 0xab]) =
    .ok [0x77, 0x17, 0x99, 0xeb, 0x6a, 0x0d, 0x45, 0x55,
      0x99, 0x17, 0x0a, 0x5d, 0x44, 0x9b, 0x35, 0xab] :=
  uuid_codec_roundtrip.1 _ (by decide) (by decide)

/-- C8: parsing fails with the invalid-UUID error exactly when the input
contains no substring matching the canonical 8-4-4-4-12 lowercase-hex
hyphenated pattern; the matcher is a substring search, so any string
containing such a substring is accepted. -/
theorem uuidRaw_invalid_iff (s : List Char) :
    (uuidRaw s = .error .invalidUuid ↔ ¬HasUuidSub s) ∧
    (HasUuidSub s → ∃ bs, uuidRaw s = .ok bs) := by
  unfold uuidRaw
  cases ht : uuidTest s with
  | true =>
    rw [if_pos rfl]
    have hsub : HasUuidSub s := (uuidTest_iff s).1 ht
    constructor
    · constructor
      · intro h; exact absurd h (by simp)
      · intro h; exact absurd hsub h
    · intro _; exact ⟨_, rfl⟩
  | false =>
    rw [if_neg (by simp)]
    have hnsub : ¬HasUuidSub s := fun h => by
      rw [(uuidTest_iff s).2 h] at ht
      exact absurd ht (by simp)
    constructor
    · exact ⟨fun _ => hnsub, fun _ => rfl⟩
    · intro h; exact absurd h hnsub

/-- Witness for C8: the string `not-a-uuid` has no UUID-pattern substring
and is rejected with the invalid-UUID error. -/
theorem uuidRaw_invalid_iff_witness :
    uuidRaw "not-a-uuid".toList = .error .invalidUuid :=
  (uuidRaw_invalid_iff "not-a-uuid".toList).1.2
    (fun h => absurd ((uuidTest_iff _).2 h) (by decide))

/-! ## The store boundary

The native library is specified only at its interface: field-name
resolution (`tdb_get_field`), (field, value) to item resolution
(`tdb_get_item`, which returns the value 0 when no matching item exists
— the source comments on exactly this convention), item-to-value
resolution (`tdb_get_item_value`, which returns a string pointer or NULL
plus a length out-parameter), and field-index-to-name lookup
(`tdb_get_field_name`). -/

structure Store where
  fieldToId : String → Option Nat
  itemOf : Nat → String → Option Nat
  itemValue : Nat → Option (List Char × Nat)
  fieldName : Nat → List Char

/-- `tdb_get_item` as seen by the JavaScript caller: the no-match case
surfaces as the return value 0. -/
def tdb_get_item (db : Store) (fid : Nat) (v : String) : Nat :=
  (db.itemOf fid v).getD 0

/-- `TrailDB.prototype.getItemValue`:
`value ? value.slice(0, length) : ''`. -/
def getItemValue (db : Store) (item : Nat) : List Char :=
  match db.itemValue item with
  | none => []
  | some (v, len) => v.take len

/-- `TrailDB.prototype.getItemKey`: the field name of the item's field
index. -/
def getItemKey (db : Store) (item : Nat) : List Char :=
  db.fieldName (tdb_item_field item)

/-! ## Event record reader

One `next` step of `EventsIterator` decodes the binary record behind the
cursor pointer: a little-endian `u64` timestamp at offset 0, a `u64`
item count at offset 8, and each item `i` reinterpreted as a `u64` at
byte offset `2 * sizeof(uint64) + sizeof(uint64) * i`.  The JavaScript
object used for map mode assigns `map[key] = value`, which overwrites an
existing key in place or appends a new one. -/

/-- Little-endian unsigned 64-bit read at a byte offset (bytes beyond
the end of the record read as 0). -/
def readU64LE (bytes : List Nat) (off : Nat) : Nat :=
  (List.range 8).foldr (fun j acc => bytes.getD (off + j) 0 + 256 * acc) 0

/-- JavaScript object property assignment on a key-ordered association
list: overwrite in place, or append the fresh key. -/
def setKey : List (List Char × List Char) → List Char → List Char →
    List (List Char × List Char)
  | [], k, v => [(k, v)]
  | (k', v') :: rest, k, v =>
    if k' = k then (k', v) :: rest else (k', v') :: setKey rest k v

/-- The `for (let i = 0 ...; i < event.num_items; i++)` loop of the
iterator: reads item `i`, pushes its decoded value, and in map mode
assigns `map[getItemKey(item)] = value`. -/
def readLoop (db : Store) (toMap : Bool) (bytes : List Nat) :
    Nat → Nat → List (List Char) → List (List Char × List Char) →
    List (List Char) × List (List Char × List Char)
  | _, 0, vals, m => (vals, m)
  | i, n + 1, vals, m =>
    let item := readU64LE bytes (2 * 8 + 8 * i)
    let value := getItemValue db item
    let m' := if toMap then setKey m (getItemKey db item) value else m
    readLoop db toMap bytes (i + 1) n (vals ++ [value]) m'

structure EventValue where
  timestamp : Nat
  values : List (List Char)
  map : List (List Char × List Char)
  deriving DecidableEq

/-- Decoding one non-null event record, as the iterator's `next` does. -/
def readEvent (db : Store) (toMap : Bool) (bytes : List Nat) : EventValue :=
  let ts := readU64LE bytes 0
  let n := readU64LE bytes 8
  let vm := readLoop db toMap bytes 0 n [] []
  ⟨ts, vm.1, vm.2⟩

/-- The decoded value of item `j` of a record (item `j` sits at byte
offset `2 * 8 + 8 * j`). -/
def itemValueAt (db : Store) (bytes : List Nat) (j : Nat) : List Char :=
  getItemValue db (readU64LE bytes (2 * 8 + 8 * j))

/-- One map-mode assignment step for item `j` of a record. -/
def mapStep (db : Store) (toMap : Bool) (bytes : List Nat)
    (acc : List (List Char × List Char)) (j : Nat) :
    List (List Char × List Char) :=
  let item := readU64LE bytes (2 * 8 + 8 * j)
  if toMap then setKey acc (getItemKey db item) (getItemValue db item) else acc

theorem itemValueAt_succ (db : Store) (bytes : List Nat) (i : Nat) :
    (fun a => itemValueAt db bytes (i + 1 + a)) =
    (fun a => itemValueAt db bytes (i + a)) ∘ Nat.succ := by
  funext a
  simp only [Function.comp_apply]
  have h : i + 1 + a = i + Nat.succ a := by omega
  rw [h]

theorem mapStep_succ (db : Store) (toMap : Bool) (bytes : List Nat) (i : Nat) :
    (fun acc a => mapStep db toMap bytes acc (i + Nat.succ a)) =
    (fun acc a => mapStep db toMap bytes acc (i + 1 + a)) := by
  funext acc a
  have h : i + Nat.succ a = i + 1 + a := by omega
  rw [h]

theorem readLoop_vals (db : Store) (toMap : Bool) (bytes : List Nat) :
    ∀ n i vals m, (readLoop db toMap bytes i n vals m).1 =
      vals ++ (List.range n).map (fun j => itemValueAt db bytes (i + j)) := by
  intro n
  induction n with
  | zero => intro i vals m; simp [readLoop]
  | succ n ih =>
    intro i vals m
    rw [readLoop, ih (i + 1)]
    rw [List.range_succ_eq_map, List.map_cons, List.map_map, List.append_assoc,
      ← itemValueAt_succ db bytes i]
    congr 1

theorem readLoop_map (db : Store) (toMap : Bool) (bytes : List Nat) :
    ∀ n i vals m, (readLoop db toMap bytes i n vals m).2 =
      (List.range n).foldl (fun acc j => mapStep db toMap bytes acc (i + j)) m := by
  intro n
  induction n with
  | zero => intro i vals m; simp [readLoop]
  | succ n ih =>
    intro i vals m
    rw [readLoop, ih (i + 1)]
    rw [List.range_succ_eq_map, List.foldl_cons, List.foldl_map, mapStep_succ db toMap bytes i]
    congr 1

theorem foldl_skip {α β : Type} (l : List β) (b : α) :
    l.foldl (fun acc _ => acc) b = b := by
  induction l generalizing b with
  | nil => rfl
  | cons x xs ih => rw [List.foldl_cons]; exact ih b

/-- C3: the event-record reader returns the header timestamp (u64 at
offset 0), reads item `i` as a u64 at byte offset
`2 * sizeof(uint64) + i * sizeof(uint64)` for every `i` below the header
item count (u64 at offset 8), resolves each item through the store's
item-value lookup (truncating to the returned length) and appends the
results in item order; in map mode it additionally performs
`map[fieldName(item)] = value` assignments in item order (and builds no
map otherwise); an item whose value lookup yields no value contributes
the empty string rather than an error. -/
theorem readEvent_spec (db : Store) (toMap : Bool) (bytes : List Nat) :
    (readEvent db toMap bytes).timestamp = readU64LE bytes 0 ∧
    (readEvent db toMap bytes).values =
      (List.range (readU64LE bytes 8)).map
        (fun i => getItemValue db (readU64LE bytes (2 * 8 + 8 * i))) ∧
    (toMap = true → (readEvent db toMap bytes).map =
      (List.range (readU64LE bytes 8)).foldl
        (fun acc i => setKey acc (getItemKey db (readU64LE bytes (2 * 8 + 8 * i)))
          (getItemValue db (readU64LE bytes (2 * 8 + 8 * i)))) []) ∧
    (toMap = false → (readEvent db toMap bytes).map = []) ∧
    (∀ i, i < readU64LE bytes 8 → db.itemValue (readU64LE bytes (2 * 8 + 8 * i)) = none →
      (readEvent db toMap bytes).values[i]? = some []) := by
  have hvals : (readEvent db toMap bytes).values =
      (List.range (readU64LE bytes 8)).map
        (fun i => getItemValue db (readU64LE bytes (2 * 8 + 8 * i))) := by
    unfold readEvent
    simp only [readLoop_vals db toMap bytes _ 0 [] [], List.nil_append, Nat.zero_add]
    apply List.map_congr_left
    intro a _
    unfold itemValueAt
    rfl
  refine ⟨rfl, hvals, ?_, ?_, ?_⟩
  · intro htm
    subst htm
    unfold readEvent
    simp only [readLoop_map db true bytes _ 0 [] [], Nat.zero_add]
    have hfun : (fun (acc : List (List Char × List Char)) (j : Nat) =>
        mapStep db true bytes acc j) =
        fun acc i => setKey acc (getItemKey db (readU64LE bytes (2 * 8 + 8 * i)))
          (getItemValue db (readU64LE bytes (2 * 8 + 8 * i))) := by
      funext acc j
      unfold mapStep
      simp
    rw [hfun]
  · intro htm
    subst htm
    unfold readEvent
    simp only [readLoop_map db false bytes _ 0 [] [], Nat.zero_add]
    have : (fun (acc : List (List Char × List Char)) (j : Nat) =>
        mapStep db false bytes acc j) = fun acc _ => acc := by
      funext acc j
      unfold mapStep
      simp
    rw [this, foldl_skip]
  · intro i hi hnone
    rw [hvals]
    rw [List.getElem?_map, List.getElem?_range hi, Option.map_some']
    unfold getItemValue
    rw [hnone]

/-- A concrete store for witnesses: item 3 resolves to the first three
characters of `abcdef`; every other item has no value. -/
def dbC3 : Store where
  fieldToId := fun _ => none
  itemOf := fun _ _ => none
  itemValue := fun it => if it = 3 then some ("abcdef".toList, 3) else none
  fieldName := fun f => if f = 3 then "k3".toList else "kx".toList

/-- The eight little-endian bytes of an unsigned 64-bit value. -/
def u64le (n : Nat) : List Nat := (List.range 8).map (fun j => n / 256 ^ j % 256)

/-- A concrete binary record: timestamp 5, item count 2, items 3 and 5. -/
def recC3 : List Nat := u64le 5 ++ u64le 2 ++ u64le 3 ++ u64le 5

/-- Witness for C3 on a concrete record: the map-mode conjunct and the
missing-value-gives-empty-string conjunct, instantiated. -/
theorem readEvent_spec_witness :
    (readEvent dbC3 true recC3).map =
      (List.range (readU64LE recC3 8)).foldl
        (fun acc i => setKey acc (getItemKey dbC3 (readU64LE recC3 (2 * 8 + 8 * i)))
          (getItemValue dbC3 (readU64LE recC3 (2 * 8 + 8 * i)))) [] ∧
    (readEvent dbC3 true recC3).values[1]? = some [] :=
  ⟨(readEvent_spec dbC3 true recC3).2.2.1 rfl,
   (readEvent_spec dbC3 true recC3).2.2.2.2 1 (by decide) rfl⟩

/-! ## Filter compiler

`TrailDBFilter` iterates over the condition list, resolving each
condition's field name (`tdb_get_field`, fatal on failure, and fatal
when the resolved index is 0), resolving the `(field, val)` pair to an
item (no-match yields the sentinel item 0), opening a new clause when
this is not the first processed condition and the condition's `and` flag
is set, and adding the signed term to the current clause.  Every call
into the native filter API is recorded in an operation trace, so that
claims about allocation and release can be read off the trace.  The
abstract filter value is the clause list itself (the freshly allocated
filter starts with one empty clause); `tdb_event_filter_new_clause`
appends an empty clause and `tdb_event_filter_add_term` appends a term
to the last clause. -/

structure FilterCond where
  field : String
  val : String
  neg : Bool
  and : Bool
  deriving DecidableEq

inductive FilterOp where
  | newFilter
  | getField (field : String)
  | getItem (fid : Nat) (val : String)
  | newClause
  | addTerm (item : Nat) (neg : Bool)
  | freeFilter
  deriving DecidableEq

/-- `tdb_event_filter_add_term`: append the term to the last (current)
clause. -/
def addTermLast : List (List (Nat × Bool)) → Nat × Bool → List (List (Nat × Bool))
  | [], t => [[t]]
  | [cl], t => [cl ++ [t]]
  | cl :: rest, t => cl :: addTermLast rest t

structure CompileSt where
  filter : List (List (Nat × Bool))
  valid : Nat
  trace : List FilterOp
  deriving DecidableEq

/-- One iteration of the `TrailDBFilter` loop over condition `c`. -/
def filterStep (db : Store) (st : CompileSt) (c : FilterCond) :
    CompileSt × Option TdbError :=
  let tr0 := st.trace ++ [.getField c.field]
  match db.fieldToId c.field with
  | none => ({ st with trace := tr0 }, some (.unableToLocateField c.field))
  | some fid =>
    if fid = 0 then ({ st with trace := tr0 }, some (.unknownFieldName c.field))
    else
      let thisItem := tdb_get_item db fid c.val
      let tr1 := tr0 ++ [.getItem fid c.val]
      let step :=
        if st.valid ≠ 0 ∧ c.and = true then (st.filter ++ [[]], tr1 ++ [.newClause])
        else (st.filter, tr1)
      (⟨addTermLast step.1 (thisItem, c.neg), st.valid + 1,
        step.2 ++ [.addTerm thisItem c.neg]⟩, none)

def tdbFilterLoop (db : Store) (st : CompileSt) :
    List FilterCond → CompileSt × Option TdbError
  | [] => (st, none)
  | c :: rest =>
    match filterStep db st c with
    | (st', none) => tdbFilterLoop db st' rest
    | (st', some e) => (st', some e)

/-- `TrailDBFilter` from the source: allocate a filter (one empty
clause), return it untouched when the condition list is empty, otherwise
run the loop. -/
def TrailDBFilter (db : Store) (conds : List FilterCond) :
    CompileSt × Option TdbError :=
  let st0 : CompileSt := ⟨[[]], 0, [.newFilter]⟩
  if conds.length ≤ 0 then (st0, none)
  else tdbFilterLoop db st0 conds

/-- Is this operation a clause/term construction call? -/
def isBuildOp : FilterOp → Bool
  | .newClause => true
  | .addTerm _ _ => true
  | _ => false

/-- The clause/term construction calls of a trace. -/
def buildOps (tr : List FilterOp) : List FilterOp :=
  tr.filter isBuildOp

/-- The item a condition resolves to (0 when the value has no item). -/
def itemFor (db : Store) (c : FilterCond) : Nat :=
  tdb_get_item db ((db.fieldToId c.field).getD 0) c.val

/-- The clause/term calls the specification predicts for the conditions
after the first: a new clause exactly when `and` is set, then the term. -/
def expectedBuildOpsRest (db : Store) : List FilterCond → List FilterOp
  | [] => []
  | c :: rest =>
    (if c.and then [.newClause] else []) ++
      (.addTerm (itemFor db c) c.neg :: expectedBuildOpsRest db rest)

/-- The clause/term calls the specification predicts: the first
condition contributes only its term (its `and` flag is ignored). -/
def expectedBuildOps (db : Store) : List FilterCond → List FilterOp
  | [] => []
  | c :: rest => .addTerm (itemFor db c) c.neg :: expectedBuildOpsRest db rest

/-- Group the conditions into clauses: a condition after the first opens
a new group exactly when its `and` flag is set. -/
def groupCondsGo (cur : List FilterCond) : List FilterCond → List (List FilterCond)
  | [] => [cur]
  | c :: rest =>
    if c.and then cur :: groupCondsGo [c] rest else groupCondsGo (cur ++ [c]) rest

def groupConds : List FilterCond → List (List FilterCond)
  | [] => [[]]
  | c :: rest => groupCondsGo [c] rest

/-- The clause structure the specification predicts for the compiled
filter. -/
def expectedFilter (db : Store) (conds : List FilterCond) : List (List (Nat × Bool)) :=
  (groupConds conds).map fun g => g.map fun c => (itemFor db c, c.neg)

/-- A concrete store for the filter witnesses: `f1` is field 1 and `f2`
is field 2; `(1, b)` is item 9 and `(2, e)` is item 10. -/
def dbF : Store where
  fieldToId := fun f => if f = "f1" then some 1 else if f = "f2" then some 2 else none
  itemOf := fun fid v =>
    if fid = 1 ∧ v = "b" then some 9 else if fid = 2 ∧ v = "e" then some 10 else none
  itemValue := fun _ => none
  fieldName := fun _ => []


theorem addTermLast_append :
    ∀ (F : List (List (Nat × Bool))) (cl : List (Nat × Bool)) (t : Nat × Bool),
      addTermLast (F ++ [cl]) t = F ++ [cl ++ [t]]
  | [], _, _ => rfl
  | [_], _, _ => rfl
  | a :: b :: F, cl, t => by
    have ih := addTermLast_append (b :: F) cl t
    show a :: addTermLast ((b :: F) ++ [cl]) t = a :: ((b :: F) ++ [cl ++ [t]])
    rw [ih]

/-- The clause contents the loop accumulates from `conds` when the
current clause already holds `cur` and at least one condition has been
processed. -/
def specGo (db : Store) (cur : List (Nat × Bool)) :
    List FilterCond → List (List (Nat × Bool))
  | [] => [cur]
  | c :: rest =>
    if c.and then cur :: specGo db [(itemFor db c, c.neg)] rest
    else specGo db (cur ++ [(itemFor db c, c.neg)]) rest

/-- The full operation trace of the loop over `conds`, once at least one
condition has been processed. -/
def stepOpsRest (db : Store) : List FilterCond → List FilterOp
  | [] => []
  | c :: rest =>
    .getField c.field :: .getItem ((db.fieldToId c.field).getD 0) c.val ::
      ((if c.and then [FilterOp.newClause] else []) ++
        (.addTerm (itemFor db c) c.neg :: stepOpsRest db rest))

theorem tdbFilterLoop_spec (db : Store) :
    ∀ (conds : List FilterCond) (F : List (List (Nat × Bool)))
      (cur : List (Nat × Bool)) (v : Nat) (tr : List FilterOp),
      v ≠ 0 →
      (∀ c ∈ conds, ∃ fid, db.fieldToId c.field = some fid ∧ fid ≠ 0) →
      tdbFilterLoop db ⟨F ++ [cur], v, tr⟩ conds =
        (⟨F ++ specGo db cur conds, v + conds.length, tr ++ stepOpsRest db conds⟩, none)
  | [], F, cur, v, tr => by
    intro _ _
    simp [tdbFilterLoop, specGo, stepOpsRest]
  | c :: rest, F, cur, v, tr => by
    intro hv hres
    obtain ⟨fid, hf, hf0⟩ := hres c (List.mem_cons_self c rest)
    have hgetD : (db.fieldToId c.field).getD 0 = fid := by rw [hf]; rfl
    have hitem : tdb_get_item db fid c.val = itemFor db c := by
      unfold itemFor
      rw [hgetD]
    by_cases ha : c.and = true
    · have hstep : filterStep db ⟨F ++ [cur], v, tr⟩ c =
          (⟨(F ++ [cur]) ++ [[(itemFor db c, c.neg)]], v + 1,
            (tr ++ [.getField c.field] ++ [.getItem fid c.val] ++ [.newClause])
              ++ [.addTerm (itemFor db c) c.neg]⟩, none) := by
        unfold filterStep
        rw [hf]
        simp only [if_neg hf0, hitem]
        have hcond : v ≠ 0 ∧ c.and = true := ⟨hv, ha⟩
        rw [if_pos hcond, addTermLast_append]
        simp [List.append_assoc]
      have hred : tdbFilterLoop db ⟨F ++ [cur], v, tr⟩ (c :: rest) =
          tdbFilterLoop db ⟨(F ++ [cur]) ++ [[(itemFor db c, c.neg)]], v + 1,
            (tr ++ [.getField c.field] ++ [.getItem fid c.val] ++ [.newClause])
              ++ [.addTerm (itemFor db c) c.neg]⟩ rest := by
        rw [tdbFilterLoop, hstep]
      rw [hred, tdbFilterLoop_spec db rest (F ++ [cur]) [(itemFor db c, c.neg)] (v + 1) _
        (by omega) (fun c' hc' => hres c' (List.mem_cons_of_mem c hc'))]
      simp only [specGo, stepOpsRest, if_pos ha, List.length_cons]
      rw [hgetD]
      have hval : v + 1 + rest.length = v + (rest.length + 1) := by omega
      rw [hval]
      simp [List.append_assoc]
    · have hstep : filterStep db ⟨F ++ [cur], v, tr⟩ c =
          (⟨F ++ [cur ++ [(itemFor db c, c.neg)]], v + 1,
            (tr ++ [.getField c.field] ++ [.getItem fid c.val])
              ++ [.addTerm (itemFor db c) c.neg]⟩, none) := by
        unfold filterStep
        rw [hf]
        simp only [if_neg hf0, hitem]
        have hcond : ¬(v ≠ 0 ∧ c.and = true) := by simp [ha]
        rw [if_neg hcond, addTermLast_append]
      have hred : tdbFilterLoop db ⟨F ++ [cur], v, tr⟩ (c :: rest) =
          tdbFilterLoop db ⟨F ++ [cur ++ [(itemFor db c, c.neg)]], v + 1,
            (tr ++ [.getField c.field] ++ [.getItem fid c.val])
              ++ [.addTerm (itemFor db c) c.neg]⟩ rest := by
        rw [tdbFilterLoop, hstep]
      rw [hred, tdbFilterLoop_spec db rest F (cur ++ [(itemFor db c, c.neg)]) (v + 1) _
        (by omega) (fun c' hc' => hres c' (List.mem_cons_of_mem c hc'))]
      simp only [specGo, stepOpsRest, if_neg ha, List.length_cons]
      rw [hgetD]
      have hval : v + 1 + rest.length = v + (rest.length + 1) := by omega
      rw [hval]
      simp [List.append_assoc]

theorem specGo_groupCondsGo (db : Store) :
    ∀ (conds : List FilterCond) (g : List FilterCond),
      specGo db (g.map fun c => (itemFor db c, c.neg)) conds =
        (groupCondsGo g conds).map fun g' => g'.map fun c => (itemFor db c, c.neg)
  | [], g => by simp [specGo, groupCondsGo]
  | c :: rest, g => by
    by_cases ha : c.and = true
    · simp only [specGo, groupCondsGo, if_pos ha, List.map_cons]
      have ih := specGo_groupCondsGo db rest [c]
      simp only [List.map_cons, List.map_nil] at ih
      rw [ih]
    · simp only [specGo, groupCondsGo, if_neg ha]
      have ih := specGo_groupCondsGo db rest (g ++ [c])
      simp only [List.map_append, List.map_cons, List.map_nil] at ih
      rw [← ih]

theorem buildOps_stepOpsRest (db : Store) :
    ∀ conds : List FilterCond,
      buildOps (stepOpsRest db conds) = expectedBuildOpsRest db conds
  | [] => rfl
  | c :: rest => by
    have ih : (stepOpsRest db rest).filter isBuildOp = expectedBuildOpsRest db rest :=
      buildOps_stepOpsRest db rest
    by_cases ha : c.and = true
    · simp only [stepOpsRest, expectedBuildOpsRest, if_pos ha, buildOps, List.filter_cons,
        List.filter_append, isBuildOp, ih]
      simp
    · simp only [stepOpsRest, expectedBuildOpsRest, if_neg ha, buildOps, List.filter_cons,
        List.filter_append, isBuildOp, ih]
      simp

/-- C1: over a non-empty condition list (with every field resolving to a
nonzero index), compilation succeeds, the sequence of clause/term calls
opens a new clause immediately before adding the `i`-th term exactly
when `i` is not the first condition and its `and` flag is true (the
first condition's flag is ignored, and each condition adds exactly one
signed term), and consequently the compiled clause structure groups
consecutive `and=false` conditions after the first into the clause
current at their turn. -/
theorem filter_clause_policy (db : Store) (conds : List FilterCond)
    (hne : conds ≠ [])
    (hres : ∀ c ∈ conds, ∃ fid, db.fieldToId c.field = some fid ∧ fid ≠ 0) :
    (TrailDBFilter db conds).2 = none ∧
    buildOps (TrailDBFilter db conds).1.trace = expectedBuildOps db conds ∧
    (TrailDBFilter db conds).1.filter = expectedFilter db conds := by
  match conds, hne with
  | c :: rest, _ =>
    obtain ⟨fid, hf, hf0⟩ := hres c (List.mem_cons_self c rest)
    have hgetD : (db.fieldToId c.field).getD 0 = fid := by rw [hf]; rfl
    have hitem : tdb_get_item db fid c.val = itemFor db c := by
      unfold itemFor
      rw [hgetD]
    have hTop : TrailDBFilter db (c :: rest) =
        tdbFilterLoop db ⟨[[]], 0, [.newFilter]⟩ (c :: rest) := by
      unfold TrailDBFilter
      rw [if_neg (by simp)]
    have hstep : filterStep db ⟨[[]], 0, [.newFilter]⟩ c =
        (⟨[] ++ [[(itemFor db c, c.neg)]], 1,
          ([.newFilter] ++ [.getField c.field] ++ [.getItem fid c.val])
            ++ [.addTerm (itemFor db c) c.neg]⟩, none) := by
      unfold filterStep
      rw [hf]
      simp only [if_neg hf0, hitem]
      have hcond : ¬((0 : Nat) ≠ 0 ∧ c.and = true) := by simp
      rw [if_neg hcond]
      have : addTermLast [[]] (itemFor db c, c.neg) = [[(itemFor db c, c.neg)]] := rfl
      rw [this]
      simp [List.append_assoc]
    have hred : TrailDBFilter db (c :: rest) =
        tdbFilterLoop db ⟨[] ++ [[(itemFor db c, c.neg)]], 1,
          ([.newFilter] ++ [.getField c.field] ++ [.getItem fid c.val])
            ++ [.addTerm (itemFor db c) c.neg]⟩ rest := by
      rw [hTop, tdbFilterLoop, hstep]
    rw [hred, tdbFilterLoop_spec db rest [] [(itemFor db c, c.neg)] 1 _
      (by omega) (fun c' hc' => hres c' (List.mem_cons_of_mem c hc'))]
    refine ⟨rfl, ?_, ?_⟩
    · simp only [buildOps, List.filter_append, List.filter_cons, List.filter_nil, isBuildOp]
      rw [show List.filter isBuildOp (stepOpsRest db rest) = expectedBuildOpsRest db rest from
        buildOps_stepOpsRest db rest]
      simp [expectedBuildOps]
    · have hg := specGo_groupCondsGo db rest [c]
      simp only [List.map_cons, List.map_nil] at hg
      simp only [List.nil_append, hg]
      rfl

/-- Witness for C1: the README's two-condition filter
`field1 == b AND field2 == e` compiles into two one-term clauses with
the new-clause call placed before the second term only. -/
theorem filter_clause_policy_witness :
    (TrailDBFilter dbF [⟨"f1", "b", false, false⟩, ⟨"f2", "e", false, true⟩]).2 = none ∧
    buildOps (TrailDBFilter dbF
      [⟨"f1", "b", false, false⟩, ⟨"f2", "e", false, true⟩]).1.trace =
      expectedBuildOps dbF [⟨"f1", "b", false, false⟩, ⟨"f2", "e", false, true⟩] ∧
    (TrailDBFilter dbF [⟨"f1", "b", false, false⟩, ⟨"f2", "e", false, true⟩]).1.filter =
      expectedFilter dbF [⟨"f1", "b", false, false⟩, ⟨"f2", "e", false, true⟩] :=
  filter_clause_policy dbF _ (by decide)
    (fun c hc => by
      rcases List.mem_cons.1 hc with rfl | hc'
      · exact ⟨1, by decide, by decide⟩
      · rcases List.mem_cons.1 hc' with rfl | hc''
        · exact ⟨2, by decide, by decide⟩
        · simp at hc'')

theorem filterStep_none (db : Store) (st : CompileSt) (c : FilterCond)
    (h : db.fieldToId c.field = none) :
    filterStep db st c = ({ st with trace := st.trace ++ [.getField c.field] },
      some (.unableToLocateField c.field)) := by
  unfold filterStep
  rw [h]

theorem filterStep_zero (db : Store) (st : CompileSt) (c : FilterCond)
    (h : db.fieldToId c.field = some 0) :
    filterStep db st c = ({ st with trace := st.trace ++ [.getField c.field] },
      some (.unknownFieldName c.field)) := by
  unfold filterStep
  rw [h]
  simp

theorem filterStep_ok_snd (db : Store) (st : CompileSt) (c : FilterCond) (fid : Nat)
    (h : db.fieldToId c.field = some fid) (h0 : fid ≠ 0) :
    (filterStep db st c).2 = none := by
  unfold filterStep
  rw [h]
  simp only [if_neg h0]

theorem tdbFilterLoop_cons_ok (db : Store) (st : CompileSt) (c : FilterCond)
    (rest : List FilterCond) (h : (filterStep db st c).2 = none) :
    tdbFilterLoop db st (c :: rest) = tdbFilterLoop db (filterStep db st c).1 rest := by
  rw [tdbFilterLoop]
  rcases hfs : filterStep db st c with ⟨st', e⟩
  rw [hfs] at h
  cases e with
  | none => rfl
  | some e' => exact absurd h (by simp)

theorem tdbFilterLoop_cons_err (db : Store) (st : CompileSt) (c : FilterCond)
    (rest : List FilterCond) (e : TdbError) (h : (filterStep db st c).2 = some e) :
    tdbFilterLoop db st (c :: rest) = filterStep db st c := by
  rw [tdbFilterLoop]
  rcases hfs : filterStep db st c with ⟨st', e'⟩
  rw [hfs] at h
  cases e' with
  | none => exact absurd h (by simp)
  | some e'' => rfl

theorem filterStep_trace_append (db : Store) (st : CompileSt) (c : FilterCond) :
    ∃ ops : List FilterOp, (filterStep db st c).1.trace = st.trace ++ ops ∧
      FilterOp.freeFilter ∉ ops := by
  unfold filterStep
  cases hf : db.fieldToId c.field with
  | none => exact ⟨[.getField c.field], rfl, by simp⟩
  | some fid =>
    by_cases h0 : fid = 0
    · subst h0
      exact ⟨[.getField c.field], by simp, by simp⟩
    · simp only [if_neg h0]
      by_cases hc : st.valid ≠ 0 ∧ c.and = true
      · rw [if_pos hc]
        exact ⟨[.getField c.field] ++ [.getItem fid c.val] ++ [.newClause]
          ++ [.addTerm (tdb_get_item db fid c.val) c.neg],
          by simp [List.append_assoc], by simp⟩
      · rw [if_neg hc]
        exact ⟨[.getField c.field] ++ [.getItem fid c.val]
          ++ [.addTerm (tdb_get_item db fid c.val) c.neg],
          by simp [List.append_assoc], by simp⟩

theorem filterStep_no_free (db : Store) (st : CompileSt) (c : FilterCond)
    (h : FilterOp.freeFilter ∉ st.trace) :
    FilterOp.freeFilter ∉ (filterStep db st c).1.trace := by
  obtain ⟨ops, heq, hnin⟩ := filterStep_trace_append db st c
  rw [heq]
  simp only [List.mem_append]
  rintro (hin | hin)
  · exact h hin
  · exact hnin hin

theorem tdbFilterLoop_no_free (db : Store) :
    ∀ (conds : List FilterCond) (st : CompileSt),
      FilterOp.freeFilter ∉ st.trace →
      FilterOp.freeFilter ∉ (tdbFilterLoop db st conds).1.trace
  | [], st => fun h => h
  | c :: rest, st => by
    intro h
    have h' : FilterOp.freeFilter ∉ (filterStep db st c).1.trace :=
      filterStep_no_free db st c h
    cases he : (filterStep db st c).2 with
    | none =>
      rw [tdbFilterLoop_cons_ok db st c rest he]
      exact tdbFilterLoop_no_free db rest _ h'
    | some e =>
      rw [tdbFilterLoop_cons_err db st c rest e he]
      exact h'

theorem tdbFilterLoop_ulf_iff (db : Store) (f : String) :
    ∀ (conds : List FilterCond) (st : CompileSt),
      (tdbFilterLoop db st conds).2 = some (.unableToLocateField f) ↔
      ∃ pre c post, conds = pre ++ c :: post ∧ c.field = f ∧
        db.fieldToId c.field = none ∧
        ∀ c' ∈ pre, ∃ fid, db.fieldToId c'.field = some fid ∧ fid ≠ 0
  | [], st => by
    constructor
    · intro h
      exact absurd h (by simp [tdbFilterLoop])
    · rintro ⟨pre, c, post, heq, -⟩
      have : ([] : List FilterCond).length = (pre ++ c :: post).length := by rw [heq]
      simp only [List.length_nil, List.length_append, List.length_cons] at this
      omega
  | c :: rest, st => by
    cases hfc : db.fieldToId c.field with
    | none =>
      rw [tdbFilterLoop_cons_err db st c rest _ (by rw [filterStep_none db st c hfc]),
        filterStep_none db st c hfc]
      constructor
      · intro h
        simp only [Option.some.injEq, TdbError.unableToLocateField.injEq] at h
        exact ⟨[], c, rest, rfl, h, hfc, by simp⟩
      · rintro ⟨pre, c', post, heq, hcf, hcnone, hpre⟩
        cases pre with
        | nil =>
          simp only [List.nil_append, List.cons.injEq] at heq
          obtain ⟨rfl, rfl⟩ := heq
          simp [hcf]
        | cons p pre' =>
          simp only [List.cons_append, List.cons.injEq] at heq
          obtain ⟨rfl, -⟩ := heq
          obtain ⟨fid, hsome, -⟩ := hpre c (List.mem_cons_self c pre')
          rw [hfc] at hsome
          exact absurd hsome (by simp)
    | some fid =>
      by_cases h0 : fid = 0
      · subst h0
        rw [tdbFilterLoop_cons_err db st c rest _ (by rw [filterStep_zero db st c hfc]),
          filterStep_zero db st c hfc]
        constructor
        · intro h
          exact absurd h (by simp)
        · rintro ⟨pre, c', post, heq, hcf, hcnone, hpre⟩
          cases pre with
          | nil =>
            simp only [List.nil_append, List.cons.injEq] at heq
            obtain ⟨rfl, rfl⟩ := heq
            rw [hfc] at hcnone
            exact absurd hcnone (by simp)
          | cons p pre' =>
            simp only [List.cons_append, List.cons.injEq] at heq
            obtain ⟨rfl, -⟩ := heq
            obtain ⟨fid', hsome, hfid'⟩ := hpre c (List.mem_cons_self c pre')
            rw [hfc] at hsome
            simp only [Option.some.injEq] at hsome
            exact absurd hsome.symm hfid'
      · rw [tdbFilterLoop_cons_ok db st c rest (filterStep_ok_snd db st c fid hfc h0)]
        rw [tdbFilterLoop_ulf_iff db f rest (filterStep db st c).1]
        constructor
        · rintro ⟨pre, c', post, heq, hcf, hcnone, hpre⟩
          refine ⟨c :: pre, c', post, by rw [heq]; rfl, hcf, hcnone, ?_⟩
          intro c'' hc''
          rcases List.mem_cons.1 hc'' with rfl | hmem
          · exact ⟨fid, hfc, h0⟩
          · exact hpre c'' hmem
        · rintro ⟨pre, c', post, heq, hcf, hcnone, hpre⟩
          cases pre with
          | nil =>
            simp only [List.nil_append, List.cons.injEq] at heq
            obtain ⟨rfl, rfl⟩ := heq
            rw [hfc] at hcnone
            exact absurd hcnone (by simp)
          | cons p pre' =>
            simp only [List.cons_append, List.cons.injEq] at heq
            obtain ⟨rfl, rfl⟩ := heq
            exact ⟨pre', c', post, rfl, hcf, hcnone,
              fun c'' hc'' => hpre c'' (List.mem_cons_of_mem c hc'')⟩

/-- C4 (amended): compilation aborts with the unable-to-locate-field
error exactly when it reaches a condition whose field name the store
cannot resolve (every earlier condition having resolved to a nonzero
index); however, at the point the error is raised the filter object
under construction is NOT released — the compiler performs no
filter-free operation at all, so the handle leaks. -/
theorem filter_unknown_field (db : Store) (conds : List FilterCond) (f : String) :
    ((TrailDBFilter db conds).2 = some (.unableToLocateField f) ↔
      ∃ pre c post, conds = pre ++ c :: post ∧ c.field = f ∧
        db.fieldToId c.field = none ∧
        ∀ c' ∈ pre, ∃ fid, db.fieldToId c'.field = some fid ∧ fid ≠ 0) ∧
    FilterOp.freeFilter ∉ (TrailDBFilter db conds).1.trace := by
  cases conds with
  | nil =>
    constructor
    · constructor
      · intro h
        exact absurd h (by simp [TrailDBFilter])
      · rintro ⟨pre, c, post, heq, -⟩
        have : ([] : List FilterCond).length = (pre ++ c :: post).length := by rw [heq]
        simp only [List.length_nil, List.length_append, List.length_cons] at this
        omega
    · simp [TrailDBFilter]
  | cons c rest =>
    have hTop : TrailDBFilter db (c :: rest) =
        tdbFilterLoop db ⟨[[]], 0, [.newFilter]⟩ (c :: rest) := by
      unfold TrailDBFilter
      rw [if_neg (by simp)]
    rw [hTop]
    constructor
    · exact tdbFilterLoop_ulf_iff db f (c :: rest) ⟨[[]], 0, [.newFilter]⟩
    · exact tdbFilterLoop_no_free db (c :: rest) ⟨[[]], 0, [.newFilter]⟩ (by simp)

/-- Counterexample for C4 as stated: compiling a condition on an
unresolvable field raises the error, yet no filter-free operation
appears anywhere in the compilation's call trace — the filter under
construction is leaked, not released. -/
theorem filter_unknown_field_cex :
    (TrailDBFilter dbF [⟨"nope", "v", false, false⟩]).2 =
      some (.unableToLocateField "nope") ∧
    FilterOp.freeFilter ∉ (TrailDBFilter dbF [⟨"nope", "v", false, false⟩]).1.trace := by
  decide

/-- Witness for C4 (amended), extracting the failing condition of a
concrete compilation. -/
theorem filter_unknown_field_witness :
    ∃ pre c post, [(⟨"nope", "v", false, false⟩ : FilterCond)] = pre ++ c :: post ∧
      c.field = "nope" ∧ dbF.fieldToId c.field = none ∧
      ∀ c' ∈ pre, ∃ fid, dbF.fieldToId c'.field = some fid ∧ fid ≠ 0 :=
  (filter_unknown_field dbF [⟨"nope", "v", false, false⟩] "nope").1.mp (by decide)

/-- C5: a condition whose (nonzero) field index and value resolve to no
item does not fail compilation: the resolution yields the sentinel
no-match item 0, and the signed term `(0, neg)` is still added to the
clause current at that step (after the `and`-triggered new clause, if
any); the step's last construction call is exactly that term. -/
theorem filter_no_match_sentinel (db : Store) (st : CompileSt) (c : FilterCond)
    (fid : Nat) (hf : db.fieldToId c.field = some fid) (h0 : fid ≠ 0)
    (hnm : db.itemOf fid c.val = none) :
    (filterStep db st c).2 = none ∧
    (filterStep db st c).1.filter =
      addTermLast (if st.valid ≠ 0 ∧ c.and = true then st.filter ++ [[]] else st.filter)
        (0, c.neg) ∧
    ∃ tr', (filterStep db st c).1.trace = tr' ++ [.addTerm 0 c.neg] := by
  have hitem : tdb_get_item db fid c.val = 0 := by
    unfold tdb_get_item
    rw [hnm]
    rfl
  unfold filterStep
  rw [hf]
  simp only [if_neg h0, hitem]
  by_cases hc : st.valid ≠ 0 ∧ c.and = true
  · rw [if_pos hc]
    exact ⟨by trivial, by rw [if_pos hc], ⟨_, rfl⟩⟩
  · rw [if_neg hc]
    exact ⟨by trivial, by rw [if_neg hc], ⟨_, rfl⟩⟩

/-- Witness for C5 at a concrete store and condition: field `f1`
resolves to index 1, value `zz` resolves to no item. -/
theorem filter_no_match_sentinel_witness :
    (filterStep dbF ⟨[[]], 1, []⟩ ⟨"f1", "zz", true, false⟩).2 = none ∧
    (filterStep dbF ⟨[[]], 1, []⟩ ⟨"f1", "zz", true, false⟩).1.filter =
      addTermLast
        (if (⟨[[]], 1, []⟩ : CompileSt).valid ≠ 0 ∧
            (⟨"f1", "zz", true, false⟩ : FilterCond).and = true
          then (⟨[[]], 1, []⟩ : CompileSt).filter ++ [[]]
          else (⟨[[]], 1, []⟩ : CompileSt).filter)
        (0, (⟨"f1", "zz", true, false⟩ : FilterCond).neg) ∧
    ∃ tr', (filterStep dbF ⟨[[]], 1, []⟩ ⟨"f1", "zz", true, false⟩).1.trace =
      tr' ++ [.addTerm 0 (⟨"f1", "zz", true, false⟩ : FilterCond).neg] :=
  filter_no_match_sentinel dbF ⟨[[]], 1, []⟩ ⟨"f1", "zz", true, false⟩ 1
    (by decide) (by decide) (by decide)

/-- C9: on an empty condition list the compiler returns the freshly
allocated filter as-is: one empty clause, a zero processed-condition
count, a trace holding only the allocation call (so no field or item
resolution and no term or clause addition happened), and no error. -/
theorem filter_empty_conds (db : Store) :
    TrailDBFilter db [] = (⟨[[]], 0, [.newFilter]⟩, none) := rfl

/-- A term is either the no-match sentinel item 0 or an item whose
decoded field index is nonzero. -/
def sentinelOrNonzeroField (t : Nat × Bool) : Prop :=
  t.1 = 0 ∨ tdb_item_field t.1 ≠ 0

theorem addTermLast_mem :
    ∀ (F : List (List (Nat × Bool))) (t t' : Nat × Bool) (cl' : List (Nat × Bool)),
      cl' ∈ addTermLast F t → t' ∈ cl' → t' = t ∨ ∃ cl ∈ F, t' ∈ cl
  | [], t, t', cl' => by
    intro hcl ht'
    simp only [addTermLast, List.mem_singleton] at hcl
    subst hcl
    simp only [List.mem_singleton] at ht'
    exact Or.inl ht'
  | [cl], t, t', cl' => by
    intro hcl ht'
    simp only [addTermLast, List.mem_singleton] at hcl
    subst hcl
    rcases List.mem_append.1 ht' with h | h
    · exact Or.inr ⟨cl, List.mem_singleton_self cl, h⟩
    · simp only [List.mem_singleton] at h
      exact Or.inl h
  | a :: b :: F, t, t', cl' => by
    intro hcl ht'
    have hshape : addTermLast (a :: b :: F) t = a :: addTermLast (b :: F) t := rfl
    rw [hshape] at hcl
    rcases List.mem_cons.1 hcl with rfl | hmem
    · exact Or.inr ⟨cl', List.mem_cons_self _ _, ht'⟩
    · rcases addTermLast_mem (b :: F) t t' cl' hmem ht' with h | ⟨cl, hclm, ht'm⟩
      · exact Or.inl h
      · exact Or.inr ⟨cl, List.mem_cons_of_mem a hclm, ht'm⟩

theorem filterStep_good (db : Store) (st : CompileSt) (c : FilterCond)
    (hwf : ∀ f v it, db.itemOf f v = some it → tdb_item_field it = f)
    (hP : ∀ cl ∈ st.filter, ∀ t ∈ cl, sentinelOrNonzeroField t) :
    ∀ cl ∈ (filterStep db st c).1.filter, ∀ t ∈ cl, sentinelOrNonzeroField t := by
  unfold filterStep
  cases hf : db.fieldToId c.field with
  | none => exact hP
  | some fid =>
    by_cases h0 : fid = 0
    · subst h0
      simp only [if_pos rfl]
      exact hP
    · simp only [if_neg h0]
      have hnew : sentinelOrNonzeroField (tdb_get_item db fid c.val, c.neg) := by
        unfold sentinelOrNonzeroField tdb_get_item
        cases hio : db.itemOf fid c.val with
        | none => exact Or.inl rfl
        | some it =>
          right
          have := hwf fid c.val it hio
          simp only [Option.getD_some]
          rw [this]
          exact h0
      by_cases hc : st.valid ≠ 0 ∧ c.and = true
      · rw [if_pos hc]
        intro cl hcl t ht
        rcases addTermLast_mem _ _ t cl hcl ht with rfl | ⟨cl0, hcl0, htm⟩
        · exact hnew
        · rcases List.mem_append.1 hcl0 with h | h
          · exact hP cl0 h t htm
          · simp only [List.mem_singleton] at h
            subst h
            exact absurd htm (by simp)
      · rw [if_neg hc]
        intro cl hcl t ht
        rcases addTermLast_mem _ _ t cl hcl ht with rfl | ⟨cl0, hcl0, htm⟩
        · exact hnew
        · exact hP cl0 hcl0 t htm

theorem tdbFilterLoop_good (db : Store)
    (hwf : ∀ f v it, db.itemOf f v = some it → tdb_item_field it = f) :
    ∀ (conds : List FilterCond) (st : CompileSt),
      (∀ cl ∈ st.filter, ∀ t ∈ cl, sentinelOrNonzeroField t) →
      ∀ cl ∈ (tdbFilterLoop db st conds).1.filter, ∀ t ∈ cl, sentinelOrNonzeroField t
  | [], st => fun hP => hP
  | c :: rest, st => by
    intro hP
    have hP' := filterStep_good db st c hwf hP
    cases he : (filterStep db st c).2 with
    | none =>
      rw [tdbFilterLoop_cons_ok db st c rest he]
      exact tdbFilterLoop_good db hwf rest _ hP'
    | some e =>
      rw [tdbFilterLoop_cons_err db st c rest e he]
      exact hP'

/-- C10 (amended): a condition whose field name resolves to field index
0 makes the compiler abort that step with the unknown-field-name error,
so no term is ever created from a resolved field index of 0; however a
compiled filter can still contain a term whose item has field part 0 —
the no-match sentinel item 0 — so every term of a successfully compiled
filter (over a store whose items encode their field) is either the
sentinel 0 or carries a nonzero field index. -/
theorem filter_field_zero (db : Store)
    (hwf : ∀ f v it, db.itemOf f v = some it → tdb_item_field it = f) :
    (∀ (st : CompileSt) (c : FilterCond), db.fieldToId c.field = some 0 →
      (filterStep db st c).2 = some (.unknownFieldName c.field)) ∧
    (∀ (conds : List FilterCond) (st' : CompileSt),
      TrailDBFilter db conds = (st', none) →
      ∀ cl ∈ st'.filter, ∀ t ∈ cl, sentinelOrNonzeroField t) := by
  constructor
  · intro st c h
    rw [filterStep_zero db st c h]
  · intro conds st' hres
    have hbase : ∀ cl ∈ ([[]] : List (List (Nat × Bool))), ∀ t ∈ cl,
        sentinelOrNonzeroField t := by
      intro cl hcl t ht
      simp only [List.mem_singleton] at hcl
      subst hcl
      exact absurd ht (by simp)
    cases conds with
    | nil =>
      have : st' = ⟨[[]], 0, [.newFilter]⟩ := by
        have := filter_empty_conds db
        rw [this] at hres
        exact (Prod.mk.injEq .. ▸ hres).1.symm ▸ rfl
      subst this
      exact hbase
    | cons c rest =>
      have hTop : TrailDBFilter db (c :: rest) =
          tdbFilterLoop db ⟨[[]], 0, [.newFilter]⟩ (c :: rest) := by
        unfold TrailDBFilter
        rw [if_neg (by simp)]
      rw [hTop] at hres
      have := tdbFilterLoop_good db hwf (c :: rest) ⟨[[]], 0, [.newFilter]⟩ hbase
      rw [hres] at this
      exact this

/-- Counterexample for C10 as stated: a successfully compiled filter can
contain a term whose item's field index is 0 — the no-match sentinel
item 0 itself decodes to field index 0. -/
theorem filter_field_zero_cex :
    (TrailDBFilter dbF [⟨"f1", "zz", false, false⟩]).2 = none ∧
    (TrailDBFilter dbF [⟨"f1", "zz", false, false⟩]).1.filter = [[(0, false)]] ∧
    tdb_item_field 0 = 0 := by
  decide

/-- A store whose items encode their field index (as real TrailDB items
do): field `f1` is index 1 and `(1, b)` is item 257, whose low byte has
bit 7 clear and field part 1; the reserved field name `time` is index 0. -/
def dbWF : Store where
  fieldToId := fun f => if f = "time" then some 0 else if f = "f1" then some 1 else none
  itemOf := fun fid v => if fid = 1 ∧ v = "b" then some 257 else none
  itemValue := fun _ => none
  fieldName := fun _ => []

theorem dbWF_wf : ∀ f v it, dbWF.itemOf f v = some it → tdb_item_field it = f := by
  intro f v it h
  unfold dbWF at h
  simp only at h
  split at h
  · rename_i hc
    simp only [Option.some.injEq] at h
    subst h
    rw [hc.1]
    decide
  · exact absurd h (by simp)

/-- Witness for C10 (amended) at the concrete well-formed store. -/
theorem filter_field_zero_witness :
    (filterStep dbWF ⟨[[]], 0, []⟩ ⟨"time", "x", false, false⟩).2 =
      some (.unknownFieldName "time") ∧
    ∀ cl ∈ (⟨[[(257, false)]], 1,
        [.newFilter, .getField "f1", .getItem 1 "b", .addTerm 257 false]⟩ :
        CompileSt).filter, ∀ t ∈ cl, sentinelOrNonzeroField t :=
  ⟨(filter_field_zero dbWF dbWF_wf).1 ⟨[[]], 0, []⟩ ⟨"time", "x", false, false⟩ (by decide),
   (filter_field_zero dbWF dbWF_wf).2 [⟨"f1", "b", false, false⟩] _ (by decide)⟩

/-! ## Event iterator teardown

The `next` closure of `EventsIterator` calls `tdb_cursor_next`; on a
null/empty record it frees the attached filter (when one was supplied)
and then the cursor, and reports `done`.  The closure never records that
it already freed its resources, so a further `next()` call runs the very
same code against the freed cursor.  The model counts cursor frees,
filter frees, and cursor reads performed after the cursor was already
freed. -/

structure IterSt where
  remaining : List (List Nat)
  cursorFrees : Nat
  filterFrees : Nat
  freedReads : Nat
  deriving DecidableEq

/-- One `next()` call of the events iterator. -/
def eventsNext (db : Store) (toMap hasFilter : Bool) (st : IterSt) :
    Option EventValue × IterSt :=
  let freedReads := if st.cursorFrees ≠ 0 then st.freedReads + 1 else st.freedReads
  match st.remaining with
  | [] =>
    (none, ⟨[], st.cursorFrees + 1,
      if hasFilter then st.filterFrees + 1 else st.filterFrees, freedReads⟩)
  | r :: rest =>
    (some (readEvent db toMap r), ⟨rest, st.cursorFrees, st.filterFrees, freedReads⟩)

/-- C6 evaluated on the code as written: the first `next()` at
exhaustion frees the cursor and the attached filter exactly once, but a
further `next()` call reads the already-freed cursor and frees the
cursor and filter a second time — the iterator has no guard after the
end signal, contradicting the claim. -/
theorem eventsNext_double_free :
    ((eventsNext dbC3 true true ⟨[], 0, 0, 0⟩).2.cursorFrees = 1 ∧
     (eventsNext dbC3 true true ⟨[], 0, 0, 0⟩).2.filterFrees = 1 ∧
     (eventsNext dbC3 true true ⟨[], 0, 0, 0⟩).2.freedReads = 0) ∧
    ((eventsNext dbC3 true true (eventsNext dbC3 true true ⟨[], 0, 0, 0⟩).2).2.cursorFrees = 2 ∧
     (eventsNext dbC3 true true (eventsNext dbC3 true true ⟨[], 0, 0, 0⟩).2).2.filterFrees = 2 ∧
     (eventsNext dbC3 true true (eventsNext dbC3 true true ⟨[], 0, 0, 0⟩).2).2.freedReads = 1) := by
  decide
